import Mathlib

/-!
# Verification of the policy-gated tool-call proxy

A shallow embedding of the access-control core of the repository:

* `ToolAccess` embeds `src/policies/tool-access.rego` — the OPA policy
  (`tool_access` package) together with its audit package
  (`tool_access.audit`): category classification, explicit-deny override,
  the `allow` rule, the `reason` derivation and the `audit_record` rule.
* `WebRoute` embeds the policy-test API route
  `src/services/web/src/app/api/policies/route.ts` (the `POST` handler
  that queries OPA at `/v1/data/tool_access/allow`).
* `SessionModel` and the audit-emitter pipeline are modelled from the
  design document (the proxy core itself ships no sources here), faithful
  to its stated contracts.
-/

namespace ToolAccess

/-- The policy input document (`input.tool`, `input.category`).  Either
field may be absent from the input document; an absent field makes the
corresponding rego membership test undefined, so the rule body that
mentions it fails. -/
structure Input where
  tool : Option String
  category : Option String
deriving DecidableEq, Repr

/-- The data sets the rego rules consult that the surrounding system may
amend (the spec calls them "externally configured data"): the explicit
allow set and the explicit deny set.  `tool-access.rego` ships concrete
values for both (see `shippedPolicyData`). -/
structure PolicyData where
  allowedTools : List String
  deniedTools : List String
deriving DecidableEq, Repr

/-- `tool_categories` from `tool-access.rego` (lines 8-16): the
tool-to-category mapping shipped with the policy. -/
def tool_categories : List (String × String) :=
  [("list_files", "read"),
   ("read_file", "read"),
   ("get_system_info", "read"),
   ("write_file", "write"),
   ("create_directory", "write"),
   ("delete_file", "destructive"),
   ("execute_command", "destructive")]

/-- Category lookup in `tool_categories`. -/
def categoryOf (tool : String) : Option String :=
  (tool_categories.find? (fun p => p.1 == tool)).map (fun p => p.2)

/-- `allowed_categories` from `tool-access.rego` (line 20). -/
def allowed_categories : List String := ["read", "write"]

/-- `allowed_tools` from `tool-access.rego` (lines 23-29). -/
def allowed_tools : List String :=
  ["list_files", "read_file", "get_system_info", "write_file", "create_directory"]

/-- `denied_tools` from `tool-access.rego` (line 33): the shipped deny
set is `set()`, the empty set. -/
def denied_tools : List String := []

/-- The data sets exactly as shipped in `tool-access.rego`. -/
def shippedPolicyData : PolicyData :=
  { allowedTools := allowed_tools, deniedTools := denied_tools }

/-- `category_allowed` (lines 37-39): the body `input.category in
allowed_categories` succeeds exactly when the category field is present
and lies in the allowed-category set. -/
def category_allowed (i : Input) : Bool :=
  match i.category with
  | some c => decide (c ∈ allowed_categories)
  | none => false

/-- `tool_explicitly_denied` (lines 43-45): the body `input.tool in
denied_tools` succeeds exactly when the tool field is present and lies in
the deny set. -/
def tool_explicitly_denied (d : PolicyData) (i : Input) : Bool :=
  match i.tool with
  | some t => decide (t ∈ d.deniedTools)
  | none => false

/-- `allow` (lines 5, 49-52): `default allow := false`; allow when
the category is permitted and the tool has not been explicitly denied. -/
def allow (d : PolicyData) (i : Input) : Bool :=
  category_allowed i && !tool_explicitly_denied d i

/-- `reason` from the audit package (lines 75-81): the if/else chain
deriving a human-readable reason for the decision. -/
def reason (d : PolicyData) (i : Input) : String :=
  if tool_explicitly_denied d i then "tool explicitly denied"
  else if !category_allowed i then "category denied"
  else if allow d i then "allowed"
  else "denied by default"

/-- An audit record as constructed by `audit_record` (lines 64-72). -/
structure AuditRecord where
  tool : String
  category : String
  allowed : Bool
  reason : String
  timestamp : String
deriving DecidableEq, Repr

/-- `audit_record` (lines 64-72): builds the record from `input.tool`,
`input.category`, `tool_access.allow` and `reason`.  When either input
field is absent the object construction is undefined in rego, so the
rule produces no record — hence the `Option`. -/
def audit_record (d : PolicyData) (i : Input) : Option AuditRecord :=
  match i.tool, i.category with
  | some t, some c =>
      some { tool := t, category := c, allowed := allow d i,
             reason := reason d i, timestamp := "TIMESTAMP_PLACEHOLDER" }
  | _, _ => none

end ToolAccess

namespace WebRoute

open ToolAccess

/-- A JSON value, as the route handles parsed OPA response bodies. -/
inductive Json where
  | null
  | bool (b : Bool)
  | num (n : Int)
  | str (s : String)
  | arr (xs : List Json)
  | obj (fields : List (String × Json))

/-- The TypeError message `null.result` raises at runtime, as the
route's catch block reads it from `err.message`. -/
def nullAccessMessage : String :=
  "Cannot read properties of null (reading 'result')"

/-- The property access `data.result` from `route.ts` line 55, with
JavaScript semantics: on an object, the property (`none` standing for
`undefined` when the key is missing); on `null`, a thrown TypeError —
`null.result` throws, so the access fails; on any other JSON value
(boolean, number, string, array) the property is `undefined`. -/
def getField (j : Json) (key : String) : Except String (Option Json) :=
  match j with
  | .null => .error nullAccessMessage
  | .obj fields => .ok ((fields.find? (fun p => p.1 == key)).map (fun p => p.2))
  | _ => .ok none

/-- `r === true` from `route.ts` line 55 applied to the accessed result
value: strict equality, so only a JSON boolean `true` counts; a missing
(`undefined`) or non-boolean value yields `false`. -/
def opaResultAllowed (r : Option Json) : Bool :=
  match r with
  | some (.bool true) => true
  | _ => false

/-- The outcome of the `fetch` to OPA as the route observes it: either
an HTTP response (status plus parsed JSON body), or a thrown exception
(timeout via `AbortSignal.timeout`, network failure, body-parse
failure), carrying `err.message` when the thrown value is an `Error`. -/
inductive FetchOutcome where
  | success (status : Nat) (body : Json)
  | failure (message : Option String)

/-- A response the route returns to its caller: either the decision
body `{tool, category, allowed}` served with HTTP 200, or an error body
`{error: message}` served with the given status. -/
inductive RouteResponse where
  | decision (tool category : Json) (allowed : Bool)
  | error (message : String) (status : Nat)

/-- The timeout handed to `AbortSignal.timeout` in the POST handler
(`route.ts` line 41), in milliseconds. -/
def opaTimeoutMs : Nat := 5000

/-- The POST handler of `route.ts` (lines 33-63): on a `response.ok`
reply it evaluates `data.result === true` — still inside the `try`, so
when the body is `null` the access throws and the catch answers 502 —
and otherwise returns `{tool, category, allowed}`; on a non-ok reply it
returns `{error: "OPA returned <status>"}` with that status; on a
thrown fetch exception (timeout, transport or parse failure) the catch
block returns `{error: err.message}` (or the fallback text) with
status 502. -/
def postPolicyTest (tool category : Json) (outcome : FetchOutcome) : RouteResponse :=
  match outcome with
  | .success status body =>
      if 200 ≤ status ∧ status ≤ 299 then
        match getField body "result" with
        | .ok r => .decision tool category (opaResultAllowed r)
        | .error m => .error m 502
      else
        .error ("OPA returned " ++ toString status) status
  | .failure msg =>
      .error (msg.getD "Failed to test policy") 502

/-- The `allowed` flag carried by a route response, when it carries one. -/
def extractAllowed : RouteResponse → Option Bool
  | .decision _ _ a => some a
  | .error _ _ => none

end WebRoute

namespace ToolAccess

/-- C1: a `read`- or `write`-category input whose tool is not in the
explicit deny set is allowed, with audit reason "allowed". -/
theorem read_write_not_denied_allowed (d : PolicyData) (i : Input)
    (hcat : i.category = some "read" ∨ i.category = some "write")
    (hden : ∀ t, i.tool = some t → t ∉ d.deniedTools) :
    allow d i = true ∧ reason d i = "allowed" := by
  have hca : category_allowed i = true := by
    rcases hcat with h | h <;> simp [category_allowed, h, allowed_categories]
  have hted : tool_explicitly_denied d i = false := by
    unfold tool_explicitly_denied
    cases htool : i.tool with
    | none => rfl
    | some t => simpa using hden t htool
  constructor
  · simp [allow, hca, hted]
  · simp [reason, hca, hted, allow]

/-- Witness for `read_write_not_denied_allowed` at a concrete input. -/
theorem read_write_not_denied_allowed_witness :
    allow shippedPolicyData ⟨some "write_file", some "write"⟩ = true ∧
    reason shippedPolicyData ⟨some "write_file", some "write"⟩ = "allowed" :=
  read_write_not_denied_allowed shippedPolicyData ⟨some "write_file", some "write"⟩
    (Or.inr rfl) (by intro t ht; cases ht; simp [shippedPolicyData, denied_tools])

/-- C2: under the shipped deny set (empty), any input whose category is
outside {read, write} — destructive, unknown, or missing — is denied
with reason "category denied", whatever the tool and whatever the
explicit allow set holds. -/
theorem category_outside_allowed_denied (ats : List String) (i : Input)
    (hr : i.category ≠ some "read") (hw : i.category ≠ some "write") :
    allow ⟨ats, denied_tools⟩ i = false ∧
    reason ⟨ats, denied_tools⟩ i = "category denied" := by
  have hca : category_allowed i = false := by
    unfold category_allowed
    cases hc : i.category with
    | none => rfl
    | some c =>
        rw [hc] at hr hw
        simp [allowed_categories]
        constructor
        · intro h; exact hr (by rw [h])
        · intro h; exact hw (by rw [h])
  have hted : tool_explicitly_denied ⟨ats, denied_tools⟩ i = false := by
    unfold tool_explicitly_denied
    cases i.tool with
    | none => rfl
    | some t => simp [denied_tools]
  constructor
  · simp [allow, hca]
  · simp [reason, hca, hted]

/-- Witness for `category_outside_allowed_denied` at a concrete input:
a destructive tool is denied on category under the shipped data sets,
whatever the allow set holds. -/
theorem category_outside_allowed_denied_witness :
    allow ⟨allowed_tools, denied_tools⟩ ⟨some "execute_command", some "destructive"⟩ = false ∧
    reason ⟨allowed_tools, denied_tools⟩ ⟨some "execute_command", some "destructive"⟩ =
      "category denied" :=
  category_outside_allowed_denied allowed_tools ⟨some "execute_command", some "destructive"⟩
    (by simp) (by simp)

/-- C3: a tool in the explicit deny set is denied with reason
"tool explicitly denied", whatever its category — explicit denial
strictly overrides category-based allowance. -/
theorem explicit_deny_overrides (d : PolicyData) (i : Input) (t : String)
    (htool : i.tool = some t) (hden : t ∈ d.deniedTools) :
    allow d i = false ∧ reason d i = "tool explicitly denied" := by
  have hted : tool_explicitly_denied d i = true := by
    simp [tool_explicitly_denied, htool, hden]
  constructor
  · simp [allow, hted]
  · simp [reason, hted]

/-- Witness for `explicit_deny_overrides`: `read_file` added to the deny
set is denied despite its `read` category. -/
theorem explicit_deny_overrides_witness :
    allow ⟨allowed_tools, ["read_file"]⟩ ⟨some "read_file", some "read"⟩ = false ∧
    reason ⟨allowed_tools, ["read_file"]⟩ ⟨some "read_file", some "read"⟩ =
      "tool explicitly denied" :=
  explicit_deny_overrides ⟨allowed_tools, ["read_file"]⟩ ⟨some "read_file", some "read"⟩
    "read_file" rfl (by simp)

/-- C6: the concrete scenarios under the shipped configuration:
`list_files`/`read` is allowed; `execute_command` and `delete_file`
(both mapped to `destructive` by `tool_categories`) are denied on
category; and with `read_file` added to the deny set, `read_file`/`read`
is denied explicitly. -/
theorem shipped_config_scenarios :
    categoryOf "list_files" = some "read" ∧
    categoryOf "execute_command" = some "destructive" ∧
    categoryOf "delete_file" = some "destructive" ∧
    categoryOf "read_file" = some "read" ∧
    shippedPolicyData.deniedTools = [] ∧
    (allow shippedPolicyData ⟨some "list_files", some "read"⟩ = true ∧
      reason shippedPolicyData ⟨some "list_files", some "read"⟩ = "allowed") ∧
    (allow shippedPolicyData ⟨some "execute_command", some "destructive"⟩ = false ∧
      reason shippedPolicyData ⟨some "execute_command", some "destructive"⟩ =
        "category denied") ∧
    (allow shippedPolicyData ⟨some "delete_file", some "destructive"⟩ = false ∧
      reason shippedPolicyData ⟨some "delete_file", some "destructive"⟩ =
        "category denied") ∧
    (allow ⟨allowed_tools, ["read_file"]⟩ ⟨some "read_file", some "read"⟩ = false ∧
      reason ⟨allowed_tools, ["read_file"]⟩ ⟨some "read_file", some "read"⟩ =
        "tool explicitly denied") := by
  refine ⟨rfl, rfl, rfl, rfl, rfl, ⟨?_, ?_⟩, ⟨?_, ?_⟩, ⟨?_, ?_⟩, ⟨?_, ?_⟩⟩ <;> decide

/-- C8: the decision depends only on the input category and on the
tool's membership in the deny set: two inputs agreeing on those — under
data sets agreeing on the deny set but with arbitrary, possibly
different, allow sets — receive the same decision.  In particular the
`allowed_tools` set never affects `allow`. -/
theorem allow_depends_only_on_category_and_denial
    (d d' : PolicyData) (i j : Input)
    (hcat : i.category = j.category)
    (hden : tool_explicitly_denied d i = tool_explicitly_denied d' j) :
    allow d i = allow d' j := by
  have hca : category_allowed i = category_allowed j := by
    simp [category_allowed, hcat]
  simp [allow, hca, hden]

/-- Witness for `allow_depends_only_on_category_and_denial`: emptying
the allow set and renaming the tool leaves the decision unchanged. -/
theorem allow_depends_only_on_category_and_denial_witness :
    (some "read" : Option String) = some "read" ∧
    allow ⟨allowed_tools, []⟩ ⟨some "list_files", some "read"⟩ =
      allow ⟨[], []⟩ ⟨some "unknown_tool", some "read"⟩ :=
  ⟨rfl, allow_depends_only_on_category_and_denial
    ⟨allowed_tools, []⟩ ⟨[], []⟩ ⟨some "list_files", some "read"⟩
    ⟨some "unknown_tool", some "read"⟩ rfl (by decide)⟩

/-- A classified ToolCallRequest always carries a tool name and a
category (§3 of the design: attributes extracted by the classifier). -/
structure ToolCallReq where
  tool : String
  category : String
deriving DecidableEq, Repr

/-- The policy input document a tool-call request gives rise to. -/
def toInput (r : ToolCallReq) : Input :=
  { tool := some r.tool, category := some r.category }

/-- Modelled from the spec: the proxy core (Session/Stream Manager,
§3 invariant) is not among the sources; per the design every request
reaches exactly one terminal outcome — a genuine policy decision, or a
policy-engine timeout treated as fail-closed deny (§4.4, §7). -/
inductive CallOutcome where
  | decided (r : ToolCallReq)
  | timedOut (r : ToolCallReq)
deriving DecidableEq, Repr

/-- The request underlying an outcome. -/
def requestOf : CallOutcome → ToolCallReq
  | .decided r => r
  | .timedOut r => r

/-- The decision rendered for one outcome: the rego `allow` for a
genuine decision, deny on timeout (fail-closed, §4.4). -/
def decisionOf (d : PolicyData) : CallOutcome → Bool
  | .decided r => allow d (toInput r)
  | .timedOut _ => false

/-- Modelled from the spec: the Audit Emitter's record for one outcome
(§4.6) — the rego `audit_record` for a genuine decision; on timeout a
deny record whose reason identifies the timeout. -/
def auditOf (d : PolicyData) : CallOutcome → Option AuditRecord
  | .decided r => audit_record d (toInput r)
  | .timedOut r =>
      some { tool := r.tool, category := r.category, allowed := false,
             reason := "policy engine timeout", timestamp := "TIMESTAMP_PLACEHOLDER" }

/-- The record `auditOf` produces, written as a total function. -/
def recordOf (d : PolicyData) : CallOutcome → AuditRecord
  | .decided r =>
      { tool := r.tool, category := r.category, allowed := allow d (toInput r),
        reason := reason d (toInput r), timestamp := "TIMESTAMP_PLACEHOLDER" }
  | .timedOut r =>
      { tool := r.tool, category := r.category, allowed := false,
        reason := "policy engine timeout", timestamp := "TIMESTAMP_PLACEHOLDER" }

theorem auditOf_eq (d : PolicyData) (c : CallOutcome) :
    auditOf d c = some (recordOf d c) := by
  cases c <;> rfl

/-- Modelled from the spec: processing a finite sequence of outcomes
emits the audit records in order (§4.6: one record per decision, off
the critical path). -/
def processCalls (d : PolicyData) (calls : List CallOutcome) : List AuditRecord :=
  calls.filterMap (auditOf d)

theorem processCalls_cons (d : PolicyData) (c : CallOutcome) (cs : List CallOutcome) :
    processCalls d (c :: cs) = recordOf d c :: processCalls d cs := by
  simp [processCalls, List.filterMap_cons, auditOf_eq]

/-- C5: processing any finite sequence of tool-call outcomes — mixed
allow, deny and timeout — emits exactly one audit record per request,
pairwise carrying the request's tool and category and an `allowed`
field equal to the decision rendered for that request. -/
theorem audit_one_record_per_request (d : PolicyData) (calls : List CallOutcome) :
    (processCalls d calls).length = calls.length ∧
    List.Forall₂
      (fun c a => a.tool = (requestOf c).tool ∧
        a.category = (requestOf c).category ∧
        a.allowed = decisionOf d c)
      calls (processCalls d calls) := by
  induction calls with
  | nil => exact ⟨rfl, List.Forall₂.nil⟩
  | cons c cs ih =>
      rw [processCalls_cons]
      refine ⟨by simp [ih.1], List.Forall₂.cons ?_ ih.2⟩
      cases c <;> simp [recordOf, requestOf, decisionOf]

/-- C9: the reason derivation is total and its fallback is unreachable:
every input receives one of the three real reasons and never
"denied by default", because a false `allow` forces an explicit denial
or a disallowed category. -/
theorem reason_total_fallback_unreachable (d : PolicyData) (i : Input) :
    (reason d i = "tool explicitly denied" ∨
      reason d i = "category denied" ∨
      reason d i = "allowed") ∧
    reason d i ≠ "denied by default" := by
  unfold reason
  cases hted : tool_explicitly_denied d i with
  | true => simp
  | false =>
      cases hca : category_allowed i with
      | false => simp
      | true => simp [allow, hca, hted]

end ToolAccess

namespace WebRoute

/-- C4: when the fetch to the policy engine times out or fails at the
transport level (any thrown exception), the route answers fail-closed:
a 502 error response carrying the exception's message, never a decision
response — in particular never `allowed = true`, and structurally
distinct from a genuine policy denial, which is a decision response
with `allowed = false`; and the timeout handed to the fetch is the
configured 5000 ms bound. -/
theorem transport_failure_fail_closed (tool category : Json) (msg : Option String) :
    postPolicyTest tool category (.failure msg) =
      .error (msg.getD "Failed to test policy") 502 ∧
    extractAllowed (postPolicyTest tool category (.failure msg)) = none ∧
    (∀ t c b, postPolicyTest tool category (.failure msg) ≠ .decision t c b) ∧
    opaTimeoutMs = 5000 := by
  refine ⟨rfl, rfl, ?_, rfl⟩
  intro t c b h
  exact RouteResponse.noConfusion h

/-- C10 counterexample: a 200 reply whose body is JSON `null` is a
successful OPA response whose `result` is not strictly `true`, yet it
does not yield `allowed = false` — the property access `data.result`
throws and the catch answers with a 502 error response carrying no
`allowed` flag at all. -/
theorem route_null_body_not_allowed_false :
    extractAllowed (postPolicyTest (.str "list_files") (.str "read")
        (.success 200 .null)) ≠ some false ∧
    postPolicyTest (.str "list_files") (.str "read") (.success 200 .null) =
      .error nullAccessMessage 502 := by
  constructor
  · intro h
    exact Option.noConfusion h
  · rfl

/-- C10 (amended): on an HTTP-ok reply from OPA whose body is not JSON
`null`, the property access succeeds and the route reports
`allowed = opaResultAllowed r`, which is `true` exactly when the
accessed `result` value is strictly the JSON boolean `true` — missing,
undefined or non-boolean values yield `false`.  (A `null` body throws
on the access and is answered with a 502 error instead; the route never
defaults to allow.) -/
theorem route_allowed_iff_result_strict_true (tool category : Json) (status : Nat)
    (body : Json) (h1 : 200 ≤ status) (h2 : status ≤ 299)
    (hnn : body ≠ .null) :
    ∃ r, getField body "result" = .ok r ∧
      extractAllowed (postPolicyTest tool category (.success status body)) =
        some (opaResultAllowed r) ∧
      (opaResultAllowed r = true ↔ r = some (.bool true)) := by
  obtain ⟨r, hr⟩ : ∃ r, getField body "result" = .ok r := by
    cases body with
    | null => exact absurd rfl hnn
    | bool b => exact ⟨none, rfl⟩
    | num n => exact ⟨none, rfl⟩
    | str s => exact ⟨none, rfl⟩
    | arr xs => exact ⟨none, rfl⟩
    | obj fields => exact ⟨_, rfl⟩
  refine ⟨r, hr, ?_, ?_⟩
  · simp [postPolicyTest, h1, h2, hr, extractAllowed]
  · cases r with
    | none => simp [opaResultAllowed]
    | some j =>
        cases j with
        | bool b => cases b <;> simp [opaResultAllowed]
        | null => simp [opaResultAllowed]
        | num n => simp [opaResultAllowed]
        | str s => simp [opaResultAllowed]
        | arr xs => simp [opaResultAllowed]
        | obj fields => simp [opaResultAllowed]

/-- Witness for `route_allowed_iff_result_strict_true` at a concrete
200-status OPA reply whose result field is the boolean true. -/
theorem route_allowed_iff_result_strict_true_witness :
    200 ≤ 200 ∧ 200 ≤ 299 ∧ Json.obj [("result", Json.bool true)] ≠ Json.null ∧
    (∃ r, getField (Json.obj [("result", Json.bool true)]) "result" = .ok r ∧
      extractAllowed (postPolicyTest (.str "list_files") (.str "read")
          (.success 200 (Json.obj [("result", Json.bool true)]))) =
        some (opaResultAllowed r) ∧
      (opaResultAllowed r = true ↔ r = some (.bool true))) :=
  ⟨by decide, by decide, fun h => Json.noConfusion h,
    route_allowed_iff_result_strict_true (.str "list_files") (.str "read") 200
      (Json.obj [("result", Json.bool true)]) (by decide) (by decide)
      (fun h => Json.noConfusion h)⟩

end WebRoute

namespace SessionModel

/-- Modelled from the spec: the per-session pending-response state (§5);
the Session/Stream Manager ships no sources here.  `ready` records the
completions (correlation id, result) that have arrived. -/
def lookupReady (ready : List (Nat × Nat)) (c : Nat) : Option Nat :=
  (ready.find? (fun p => p.1 == c)).map (fun p => p.2)

/-- Modelled from the spec: flush the longest prefix of the pending
queue whose responses have arrived, emitting frames in admission order
(§5: responses are delivered in the order their requests were admitted,
matched by correlation id).  Returns the emitted frames and the
remaining queue. -/
def flushQueue : List Nat → List (Nat × Nat) → List (Nat × Nat) × List Nat
  | [], _ => ([], [])
  | c :: rest, ready =>
      match lookupReady ready c with
      | some r =>
          let p := flushQueue rest ready
          ((c, r) :: p.1, p.2)
      | none => ([], c :: rest)

/-- Modelled from the spec: the per-session delivery loop — underlying
policy/forward completions arrive in arbitrary order; each is recorded
and the queue flushed (§5). -/
def runSession : List Nat → List (Nat × Nat) → List (Nat × Nat) → List (Nat × Nat)
  | _, _, [] => []
  | pending, ready, comp :: comps =>
      let f := flushQueue pending (comp :: ready)
      f.1 ++ runSession f.2 (comp :: ready) comps

theorem flushQueue_split (pending : List Nat) (ready : List (Nat × Nat)) :
    (flushQueue pending ready).1.map Prod.fst ++ (flushQueue pending ready).2 = pending := by
  induction pending with
  | nil => rfl
  | cons c rest ih =>
      unfold flushQueue
      cases h : lookupReady ready c with
      | some r => simp only [h]; simpa using ih
      | none => simp [h]

theorem lookupReady_mem (ready : List (Nat × Nat)) (c : Nat)
    (h : c ∈ ready.map Prod.fst) : ∃ r, lookupReady ready c = some r := by
  induction ready with
  | nil => simp at h
  | cons p ps ih =>
      by_cases hc : p.1 = c
      · exact ⟨p.2, by simp [lookupReady, List.find?_cons_of_pos, hc]⟩
      · have hm : c ∈ ps.map Prod.fst := by
          rw [List.map_cons] at h
          rcases List.mem_cons.mp h with h1 | h1
          · exact absurd h1.symm hc
          · exact h1
        obtain ⟨r, hr⟩ := ih hm
        refine ⟨r, ?_⟩
        unfold lookupReady at hr ⊢
        rwa [List.find?_cons_of_neg]
        simpa using hc

theorem lookupReady_mem_pair (ready : List (Nat × Nat)) (c r : Nat)
    (h : lookupReady ready c = some r) : (c, r) ∈ ready := by
  unfold lookupReady at h
  cases hf : ready.find? (fun p => p.1 == c) with
  | none => rw [hf] at h; simp at h
  | some p =>
      rw [hf] at h
      have h2 : p.2 = r := by simpa using h
      have hp : p.1 = c := by simpa using List.find?_some hf
      have hmem := List.mem_of_find?_eq_some hf
      have hcr : (c, r) = p := by rw [← hp, ← h2]
      rwa [hcr]

theorem flushQueue_all (pending : List Nat) (ready : List (Nat × Nat))
    (h : ∀ c ∈ pending, c ∈ ready.map Prod.fst) :
    (flushQueue pending ready).2 = [] := by
  induction pending with
  | nil => rfl
  | cons c rest ih =>
      obtain ⟨r, hr⟩ := lookupReady_mem ready c (h c (by simp))
      unfold flushQueue
      simp only [hr]
      exact ih (fun x hx => h x (by simp [hx]))

theorem flushQueue_emits_ready (pending : List Nat) (ready : List (Nat × Nat)) :
    ∀ p ∈ (flushQueue pending ready).1, p ∈ ready := by
  induction pending with
  | nil => intro p hp; simp [flushQueue] at hp
  | cons c rest ih =>
      intro p hp
      unfold flushQueue at hp
      cases h : lookupReady ready c with
      | none => rw [h] at hp; simp at hp
      | some r =>
          rw [h] at hp
          simp only [List.mem_cons] at hp
          rcases hp with hp | hp
          · rw [hp]; exact lookupReady_mem_pair ready c r h
          · exact ih p hp

theorem runSession_delivers (comps : List (Nat × Nat)) :
    ∀ (pending : List Nat) (ready : List (Nat × Nat)),
    (∀ c ∈ pending, c ∈ ready.map Prod.fst ∨ c ∈ comps.map Prod.fst) →
    (comps = [] → pending = []) →
    (runSession pending ready comps).map Prod.fst = pending := by
  induction comps with
  | nil =>
      intro pending ready _ hnil
      rw [hnil rfl]
      rfl
  | cons comp rest ih =>
      intro pending ready hmem _
      show ((flushQueue pending (comp :: ready)).1 ++
        runSession (flushQueue pending (comp :: ready)).2 (comp :: ready) rest).map
          Prod.fst = pending
      rw [List.map_append]
      have hsplit := flushQueue_split pending (comp :: ready)
      have hsub : ∀ c ∈ (flushQueue pending (comp :: ready)).2, c ∈ pending := by
        intro c hc
        rw [← hsplit]
        exact List.mem_append_right _ hc
      have hmem' : ∀ c ∈ (flushQueue pending (comp :: ready)).2,
          c ∈ (comp :: ready).map Prod.fst ∨ c ∈ rest.map Prod.fst := by
        intro c hc
        rcases hmem c (hsub c hc) with h | h
        · exact Or.inl (by simp only [List.map_cons, List.mem_cons]; exact Or.inr h)
        · rw [List.map_cons] at h
          rcases List.mem_cons.mp h with h1 | h1
          · exact Or.inl (by simp [h1])
          · exact Or.inr h1
      have hnil' : rest = [] → (flushQueue pending (comp :: ready)).2 = [] := by
        intro hrest
        apply flushQueue_all
        intro c hc
        rcases hmem c hc with h | h
        · rw [List.map_cons]
          exact List.mem_cons_of_mem _ h
        · rw [hrest, List.map_cons] at h
          rcases List.mem_cons.mp h with h1 | h1
          · rw [List.map_cons]
            exact List.mem_cons.mpr (Or.inl h1)
          · simp at h1
      rw [ih _ _ hmem' hnil']
      exact hsplit

theorem runSession_emits_completions (comps : List (Nat × Nat)) :
    ∀ (pending : List Nat) (ready : List (Nat × Nat)),
    ∀ p ∈ runSession pending ready comps, p ∈ ready ∨ p ∈ comps := by
  induction comps with
  | nil => intro pending ready p hp; simp [runSession] at hp
  | cons comp rest ih =>
      intro pending ready p hp
      have hp' : p ∈ (flushQueue pending (comp :: ready)).1 ∨
          p ∈ runSession (flushQueue pending (comp :: ready)).2 (comp :: ready) rest :=
        List.mem_append.mp hp
      rcases hp' with hp1 | hp1
      · have := flushQueue_emits_ready pending (comp :: ready) p hp1
        rcases List.mem_cons.mp this with h | h
        · exact Or.inr (by simp [h])
        · exact Or.inl h
      · rcases ih _ _ p hp1 with h | h
        · rcases List.mem_cons.mp h with h1 | h1
          · exact Or.inr (by simp [h1])
          · exact Or.inl h1
        · exact Or.inr (by simp [h])

/-- C7: for N tool calls admitted to one session, when each admitted
correlation id is completed exactly once (in arbitrary order — any
permutation of the admission order), exactly N response frames are
delivered, in admission order, each carrying its request's correlation
id, and every delivered frame is one of the actual completions. -/
theorem pipelined_responses_in_order (requests : List Nat)
    (completions : List (Nat × Nat))
    (hperm : (completions.map Prod.fst).Perm requests) :
    (runSession requests [] completions).map Prod.fst = requests ∧
    (runSession requests [] completions).length = requests.length ∧
    ∀ p ∈ runSession requests [] completions, p ∈ completions := by
  have hmain : (runSession requests [] completions).map Prod.fst = requests := by
    apply runSession_delivers
    · intro c hc
      exact Or.inr (hperm.mem_iff.mpr hc)
    · intro hnil
      subst hnil
      have h0 : requests.Perm ([] : List Nat) := by simpa using hperm.symm
      exact h0.eq_nil
  refine ⟨hmain, ?_, ?_⟩
  · have hl := congrArg List.length hmain
    rwa [List.length_map] at hl
  · intro p hp
    rcases runSession_emits_completions completions requests [] p hp with h | h
    · simp at h
    · exact h

/-- Witness for `pipelined_responses_in_order`: three pipelined calls
whose completions arrive out of order are answered in admission order. -/
theorem pipelined_responses_in_order_witness :
    (([(2, 20), (3, 30), (1, 10)] : List (Nat × Nat)).map Prod.fst).Perm [1, 2, 3] ∧
    ((runSession [1, 2, 3] [] [(2, 20), (3, 30), (1, 10)]).map Prod.fst = [1, 2, 3] ∧
     (runSession [1, 2, 3] [] [(2, 20), (3, 30), (1, 10)]).length =
       ([1, 2, 3] : List Nat).length ∧
     ∀ p ∈ runSession [1, 2, 3] [] [(2, 20), (3, 30), (1, 10)],
       p ∈ ([(2, 20), (3, 30), (1, 10)] : List (Nat × Nat))) :=
  ⟨by decide,
    pipelined_responses_in_order [1, 2, 3] [(2, 20), (3, 30), (1, 10)] (by decide)⟩

end SessionModel
